import Mathlib

/-!
Shallow embedding of the flakeid crate (mantono/flakeid): flake identifier
generation from a millisecond timestamp, a node id and a per-millisecond
sequence counter, together with the base64 text encoding and decoding of
identifiers.  Machine integers (u16, u64, u128) are modelled as `Nat` with
explicit `% 2^w` where the Rust code can wrap or truncate.  The wall clock
read (`SeqGen::time`) is modelled by passing the current millisecond reading
`now` as an explicit parameter.
-/

/-- Errors that can occur when generating an identifier (src/gen.rs, `FlakeErr`). -/
inductive FlakeErr where
  | TimeDrift : FlakeErr
  | Exhausted : FlakeErr
deriving DecidableEq

/-- State of the sequence generator (src/seq.rs, `SeqGen`): the timestamp (u128)
and sequence number (u16) of the last successful generation. -/
structure SeqGen where
  timestamp : Nat
  seq : Nat
deriving DecidableEq

/-- Initial state of a sequence counter (src/seq.rs, `impl Default for SeqGen`). -/
def SeqGen.default : SeqGen := ⟨0, 0⟩

/-- One step of src/seq.rs `SeqGen::try_next`, with the wall-clock reading `now`
(the result of `Self::time()`, in milliseconds) passed explicitly.  Returns the
result together with the state after the call; on an error the Rust method
returns before mutating `self`, so the state is returned unchanged.
`self.seq.checked_add(1)` on a u16 returns `None` exactly when the sum would
exceed `2^16 - 1`. -/
def SeqGen.try_next (st : SeqGen) (now : Nat) : Except FlakeErr (Nat × Nat) × SeqGen :=
  if st.timestamp < now then
    (Except.ok (now, 0), ⟨now, 0⟩)
  else if st.timestamp = now then
    if st.seq + 1 < 2 ^ 16 then
      (Except.ok (now, st.seq + 1), ⟨now, st.seq + 1⟩)
    else
      (Except.error FlakeErr.Exhausted, st)
  else
    (Except.error FlakeErr.TimeDrift, st)

/-- A flake identifier (src/id.rs, `Flake`): a wrapped u128 value. -/
structure Flake where
  val : Nat
deriving DecidableEq

/-- Constructor `Flake::new` (src/id.rs); the argument is a u128. -/
def Flake.new (value : Nat) : Flake := ⟨value % 2 ^ 128⟩

/-- Accessor `Flake::value` (src/id.rs). -/
def Flake.value (f : Flake) : Nat := f.val

/-- Accessor `Flake::timestamp` (src/id.rs): the upper 64 bits of the value.
The `u64::try_from(...).expect(...)` never fails because a u128 shifted right
by 64 bits always fits in 64 bits. -/
def Flake.timestamp (f : Flake) : Nat := f.val >>> 64

/-- The strict order on flake identifiers (src/id.rs, `impl Ord for Flake`
delegates to `u128::cmp` on the wrapped value). -/
def Flake.lt (a b : Flake) : Prop := a.val < b.val

instance (a b : Flake) : Decidable (Flake.lt a b) :=
  inferInstanceAs (Decidable (a.val < b.val))

/-- Generator state (src/gen.rs, `FlakeGen`): a node id (u64) and a sequence
counter. -/
structure FlakeGen where
  node_id : Nat
  seq : SeqGen
deriving DecidableEq

/-- Constructor `FlakeGen::new` (src/gen.rs): stores the given u64 `node_id`
unchanged and a default sequence counter. -/
def FlakeGen.new (node_id : Nat) : FlakeGen := ⟨node_id % 2 ^ 64, SeqGen.default⟩

/-- Bit packing `FlakeGen::build` (src/gen.rs): with `NODE_BITS = 48` and
`SEQ_BITS = 16`, computes `(node << 16) ^ (time << 64) ^ seq` in u128
arithmetic.  `time` is a u128 (the shift can wrap), `node` a u64 and `seq` a
u16 (their casts to u128 are lossless). -/
def FlakeGen.build (time node seq : Nat) : Nat :=
  ((((node % 2 ^ 64) <<< 16) % 2 ^ 128) ^^^ (((time % 2 ^ 128) <<< (48 + 16)) % 2 ^ 128))
    ^^^ (seq % 2 ^ 16)

/-- One step of src/gen.rs `FlakeGen::try_next`, with the wall-clock reading
passed explicitly: delegate to the sequence counter, then pack the timestamp,
node id and sequence into a `Flake`.  Errors propagate unchanged. -/
def FlakeGen.try_next (g : FlakeGen) (now : Nat) : Except FlakeErr Flake × FlakeGen :=
  match g.seq.try_next now with
  | (Except.ok (t, s), st) => (Except.ok (Flake.new (FlakeGen.build t g.node_id s)), ⟨g.node_id, st⟩)
  | (Except.error e, st) => (Except.error e, ⟨g.node_id, st⟩)

/-- Modelled from the spec: the reference packing formula of §4.2,
`(timestamp << 64) | (node << 16) | sequence`, written with bitwise OR as the
spec states it.  Used only to compare against the implemented `FlakeGen.build`. -/
def packSpec (time node seq : Nat) : Nat :=
  (time <<< 64) ||| (node <<< 16) ||| seq

/-! ### Arithmetic on disjoint bit fields -/

/-- XOR of a shifted value with a value that fits below the shift is addition. -/
theorem xor_low {i b : Nat} (a : Nat) (hb : b < 2 ^ i) :
    a * 2 ^ i ^^^ b = a * 2 ^ i + b := by
  rw [Nat.mul_comm a (2 ^ i)]
  apply Nat.eq_of_testBit_eq
  intro j
  rw [Nat.testBit_xor, Nat.testBit_mul_pow_two_add a hb, Nat.testBit_mul_pow_two]
  by_cases h : j < i
  · simp [h, Nat.not_le_of_lt h]
  · have hij : i ≤ j := Nat.le_of_not_lt h
    have hbj : b < 2 ^ j := lt_of_lt_of_le hb (Nat.pow_le_pow_right (by norm_num) hij)
    simp [h, hij, Nat.testBit_lt_two_pow hbj]

/-- OR of a shifted value with a value that fits below the shift is addition. -/
theorem or_low {i b : Nat} (a : Nat) (hb : b < 2 ^ i) :
    a * 2 ^ i ||| b = a * 2 ^ i + b := by
  rw [Nat.mul_comm a (2 ^ i)]
  exact (Nat.mul_add_lt_is_or hb a).symm

/-- On in-range arguments (`time < 2^64`, `node < 2^48`, `seq < 2^16`) the
implemented packing is plain positional arithmetic on the three fields. -/
theorem build_eq_sum {t n s : Nat} (ht : t < 2 ^ 64) (hn : n < 2 ^ 48) (hs : s < 2 ^ 16) :
    FlakeGen.build t n s = t * 2 ^ 64 + n * 2 ^ 16 + s := by
  have hn64 : n < 2 ^ 64 := lt_of_lt_of_le hn (by norm_num)
  have ht128 : t < 2 ^ 128 := lt_of_lt_of_le ht (by norm_num)
  have hshift : t * 2 ^ 64 < 2 ^ 128 := by
    calc t * 2 ^ 64 < 2 ^ 64 * 2 ^ 64 := mul_lt_mul_of_pos_right ht (by norm_num)
      _ = 2 ^ 128 := by norm_num
  have hnshift : n * 2 ^ 16 < 2 ^ 64 := by
    calc n * 2 ^ 16 < 2 ^ 48 * 2 ^ 16 := mul_lt_mul_of_pos_right hn (by norm_num)
      _ = 2 ^ 64 := by norm_num
  have hnshift128 : n * 2 ^ 16 < 2 ^ 128 := lt_of_lt_of_le hnshift (by norm_num)
  unfold FlakeGen.build
  rw [show (48 : Nat) + 16 = 64 from rfl, Nat.shiftLeft_eq, Nat.shiftLeft_eq,
    Nat.mod_eq_of_lt hn64, Nat.mod_eq_of_lt ht128, Nat.mod_eq_of_lt hs,
    Nat.mod_eq_of_lt hshift, Nat.mod_eq_of_lt hnshift128,
    Nat.xor_comm (n * 2 ^ 16) (t * 2 ^ 64), xor_low t hnshift,
    show t * 2 ^ 64 + n * 2 ^ 16 = (t * 2 ^ 48 + n) * 2 ^ 16 by ring,
    xor_low _ hs]

/-- On in-range arguments the spec's OR-based packing formula is also plain
positional arithmetic. -/
theorem packSpec_eq_sum {t n s : Nat} (ht : t < 2 ^ 64) (hn : n < 2 ^ 48) (hs : s < 2 ^ 16) :
    packSpec t n s = t * 2 ^ 64 + n * 2 ^ 16 + s := by
  have hnshift : n * 2 ^ 16 < 2 ^ 64 := by
    calc n * 2 ^ 16 < 2 ^ 48 * 2 ^ 16 := mul_lt_mul_of_pos_right hn (by norm_num)
      _ = 2 ^ 64 := by norm_num
  unfold packSpec
  rw [Nat.shiftLeft_eq, Nat.shiftLeft_eq, or_low t hnshift,
    show t * 2 ^ 64 + n * 2 ^ 16 = (t * 2 ^ 48 + n) * 2 ^ 16 by ring,
    or_low _ hs]

/-! ### Inversion of successful sequence-counter calls -/

/-- Inversion of a successful `SeqGen.try_next` call: the returned timestamp is
the clock reading, the new state records the returned pair, the returned
sequence fits in 16 bits, and the branch taken is determined by how the clock
reading compares to the stored timestamp. -/
theorem seq_try_next_ok {st : SeqGen} {now t s : Nat} {st' : SeqGen}
    (h : st.try_next now = (Except.ok (t, s), st')) :
    t = now ∧ st' = ⟨now, s⟩ ∧ s < 2 ^ 16 ∧ st.timestamp ≤ now ∧
    (st.timestamp = now → s = st.seq + 1) ∧ (st.timestamp < now → s = 0) := by
  unfold SeqGen.try_next at h
  by_cases hlt : st.timestamp < now
  · rw [if_pos hlt] at h
    simp only [Prod.mk.injEq, Except.ok.injEq] at h
    obtain ⟨⟨ht, hs⟩, hst⟩ := h
    subst ht
    subst hs
    subst hst
    exact ⟨rfl, rfl, by norm_num, Nat.le_of_lt hlt,
      fun heq => absurd heq (Nat.ne_of_lt hlt), fun _ => rfl⟩
  · rw [if_neg hlt] at h
    by_cases heq : st.timestamp = now
    · rw [if_pos heq] at h
      by_cases hof : st.seq + 1 < 2 ^ 16
      · rw [if_pos hof] at h
        simp only [Prod.mk.injEq, Except.ok.injEq] at h
        obtain ⟨⟨ht, hs⟩, hst⟩ := h
        subst ht
        subst hs
        subst hst
        exact ⟨rfl, rfl, hof, Nat.le_of_eq heq, fun _ => rfl,
          fun hlt' => absurd hlt' hlt⟩
      · rw [if_neg hof] at h
        simp at h
    · rw [if_neg heq] at h
      simp at h

/-- Inversion of a successful `FlakeGen.try_next` call: the identifier is the
packed value of the counter's returned pair with the generator's node id, and
the node id is unchanged. -/
theorem gen_try_next_ok {g : FlakeGen} {now : Nat} {id : Flake} {g' : FlakeGen}
    (h : g.try_next now = (Except.ok id, g')) :
    ∃ t s, g.seq.try_next now = (Except.ok (t, s), g'.seq) ∧
      id = Flake.new (FlakeGen.build t g.node_id s) ∧ g'.node_id = g.node_id := by
  unfold FlakeGen.try_next at h
  rcases e : g.seq.try_next now with ⟨r, st⟩
  rw [e] at h
  rcases r with err | ⟨t, s⟩
  · simp at h
  · simp only [Prod.mk.injEq, Except.ok.injEq] at h
    obtain ⟨hid, hg⟩ := h
    subst hg
    exact ⟨t, s, rfl, hid.symm, rfl⟩

/-- Bound on the packed value for in-range fields. -/
theorem build_lt_two_pow {t n s : Nat} (ht : t < 2 ^ 64) (hn : n < 2 ^ 48) (hs : s < 2 ^ 16) :
    FlakeGen.build t n s < 2 ^ 128 := by
  rw [build_eq_sum ht hn hs]
  norm_num at ht hn hs ⊢
  omega

/-- Strict monotonicity of the packed value in (timestamp, sequence),
lexicographically, for a fixed node. -/
theorem build_mono {n now1 now2 s1 s2 : Nat} (hn : n < 2 ^ 48) (h1 : now1 < 2 ^ 64)
    (h2 : now2 < 2 ^ 64) (hs1 : s1 < 2 ^ 16) (hs2 : s2 < 2 ^ 16)
    (hcase : now1 < now2 ∨ (now1 = now2 ∧ s1 < s2)) :
    FlakeGen.build now1 n s1 < FlakeGen.build now2 n s2 := by
  rw [build_eq_sum h1 hn hs1, build_eq_sum h2 hn hs2]
  norm_num at h1 h2 hn hs1 hs2 ⊢
  omega

/-- Comparison of two freshly wrapped in-range identifier values. -/
theorem flake_new_lt_iff {a b : Nat} (ha : a < 2 ^ 128) (hb : b < 2 ^ 128) :
    Flake.lt (Flake.new a) (Flake.new b) ↔ a < b := by
  unfold Flake.lt Flake.new
  rw [Nat.mod_eq_of_lt ha, Nat.mod_eq_of_lt hb]

/-- C1: for a generator whose node id is below `2^48`, two consecutive
successful `try_next` calls, with both wall-clock readings below `2^64`
milliseconds, return identifiers in strictly increasing Flake order. -/
theorem gen_try_next_monotonic (node : Nat) (st : SeqGen) (now1 now2 : Nat)
    (hn : node < 2 ^ 48) (h1 : now1 < 2 ^ 64) (h2 : now2 < 2 ^ 64)
    (id1 id2 : Flake) (g1 g2 : FlakeGen)
    (hc1 : FlakeGen.try_next ⟨node, st⟩ now1 = (Except.ok id1, g1))
    (hc2 : FlakeGen.try_next g1 now2 = (Except.ok id2, g2)) :
    Flake.lt id1 id2 := by
  obtain ⟨t1, s1, hseq1, hid1, hnode1⟩ := gen_try_next_ok hc1
  obtain ⟨t2, s2, hseq2, hid2, hnode2⟩ := gen_try_next_ok hc2
  obtain ⟨ht1, hst1, hs1lt, _, _, _⟩ := seq_try_next_ok hseq1
  rw [hst1] at hseq2
  obtain ⟨ht2, _, hs2lt, hle2, heq2, hlt2⟩ := seq_try_next_ok hseq2
  simp at hle2 heq2 hlt2
  rw [ht1] at hid1
  rw [ht2] at hid2
  rw [hnode1] at hid2
  have hmono : FlakeGen.build now1 node s1 < FlakeGen.build now2 node s2 := by
    rcases Nat.lt_or_eq_of_le hle2 with hlt | heqt
    · exact build_mono hn h1 h2 hs1lt hs2lt (Or.inl hlt)
    · exact build_mono hn h1 h2 hs1lt hs2lt (Or.inr ⟨heqt, by rw [heq2 heqt]; omega⟩)
  rw [hid1, hid2]
  exact (flake_new_lt_iff (build_lt_two_pow h1 hn hs1lt) (build_lt_two_pow h2 hn hs2lt)).mpr hmono

/-- C1 witness: a concrete generator with node id 789486, two consecutive
calls at millisecond 1 from the default counter state. -/
theorem gen_try_next_monotonic_witness :
    Flake.lt (Flake.new (FlakeGen.build 1 789486 0)) (Flake.new (FlakeGen.build 1 789486 1)) :=
  gen_try_next_monotonic 789486 ⟨0, 0⟩ 1 1 (by norm_num) (by norm_num) (by norm_num)
    (Flake.new (FlakeGen.build 1 789486 0)) (Flake.new (FlakeGen.build 1 789486 1))
    ⟨789486, ⟨1, 0⟩⟩ ⟨789486, ⟨1, 1⟩⟩ rfl rfl

/-! ### Failure transparency of the sequence counter -/

/-- A failing `SeqGen.try_next` call leaves the counter state unchanged. -/
theorem seq_try_next_error_state {st : SeqGen} {now : Nat} {e : FlakeErr}
    (h : (SeqGen.try_next st now).1 = Except.error e) : (SeqGen.try_next st now).2 = st := by
  unfold SeqGen.try_next at h ⊢
  by_cases h1 : st.timestamp < now
  · rw [if_pos h1] at h
    simp at h
  · rw [if_neg h1] at h ⊢
    by_cases h2 : st.timestamp = now
    · rw [if_pos h2] at h ⊢
      by_cases h3 : st.seq + 1 < 2 ^ 16
      · rw [if_pos h3] at h
        simp at h
      · rw [if_neg h3]
    · rw [if_neg h2]

/-- C3: a `next` call with a clock reading earlier than the stored timestamp
fails with `TimeDrift`; every failing call (`TimeDrift` or `Exhausted`) leaves
the counter state exactly unchanged, so a subsequent call behaves as if the
failed call never happened. -/
theorem seq_drift_rejection (st : SeqGen) (now now' : Nat) :
    (now < st.timestamp → SeqGen.try_next st now = (Except.error FlakeErr.TimeDrift, st)) ∧
    (∀ e : FlakeErr, (SeqGen.try_next st now).1 = Except.error e →
      (SeqGen.try_next st now).2 = st ∧
      SeqGen.try_next (SeqGen.try_next st now).2 now' = SeqGen.try_next st now') := by
  refine ⟨?_, ?_⟩
  · intro h
    unfold SeqGen.try_next
    rw [if_neg (by omega), if_neg (by omega)]
  · intro e he
    have hst := seq_try_next_error_state he
    exact ⟨hst, by rw [hst]⟩

/-- C3 witness: a counter that last issued at millisecond 5, called at
millisecond 3. -/
theorem seq_drift_rejection_witness :
    SeqGen.try_next ⟨5, 0⟩ 3 = (Except.error FlakeErr.TimeDrift, ⟨5, 0⟩) :=
  (seq_drift_rejection ⟨5, 0⟩ 3 5).1 (by decide)

/-! ### Exhaustion boundary -/

/-- State of a sequence counter after `k` consecutive `try_next` calls, all at
the same clock reading `now`. -/
def SeqGen.runAt (st : SeqGen) (now : Nat) : Nat → SeqGen
  | 0 => st
  | k + 1 => ((SeqGen.runAt st now k).try_next now).2

/-- Closed form of the counter state after `k + 1` calls at a fixed
millisecond `m` later than the initial timestamp. -/
theorem runAt_closed {st : SeqGen} {m : Nat} (h : st.timestamp < m) :
    ∀ k, k < 2 ^ 16 → SeqGen.runAt st m (k + 1) = ⟨m, k⟩ := by
  intro k
  induction k with
  | zero =>
    intro _
    show ((st.try_next m)).2 = ⟨m, 0⟩
    unfold SeqGen.try_next
    rw [if_pos h]
  | succ j ih =>
    intro hk
    show ((SeqGen.runAt st m (j + 1)).try_next m).2 = ⟨m, j + 1⟩
    rw [ih (by omega)]
    unfold SeqGen.try_next
    rw [if_neg (lt_irrefl m), if_pos rfl, if_pos (show j + 1 < 2 ^ 16 from hk)]

/-- C2: starting from a counter whose timestamp is strictly below `m`, the
first `2^16` calls at millisecond `m` succeed returning sequences
`0, 1, ..., 2^16 - 1` in order, and the `2^16 + 1`-st call fails with
`Exhausted` leaving the recorded state unchanged. -/
theorem seq_exhaustion_boundary (st : SeqGen) (m : Nat) (h : st.timestamp < m) :
    (∀ k, k < 2 ^ 16 → (SeqGen.runAt st m k).try_next m = (Except.ok (m, k), ⟨m, k⟩)) ∧
    (SeqGen.runAt st m (2 ^ 16)).try_next m
      = (Except.error FlakeErr.Exhausted, SeqGen.runAt st m (2 ^ 16)) := by
  have hclosed := runAt_closed h
  constructor
  · intro k hk
    match k with
    | 0 =>
      show st.try_next m = _
      unfold SeqGen.try_next
      rw [if_pos h]
    | j + 1 =>
      rw [hclosed j (by omega)]
      unfold SeqGen.try_next
      rw [if_neg (lt_irrefl m), if_pos rfl, if_pos (show j + 1 < 2 ^ 16 from hk)]
  · have e : (2 : Nat) ^ 16 = (2 ^ 16 - 1) + 1 := by norm_num
    rw [e, hclosed (2 ^ 16 - 1) (by norm_num)]
    unfold SeqGen.try_next
    rw [if_neg (lt_irrefl m), if_pos rfl, if_neg (by norm_num)]

/-- C2 witness: the first call at millisecond 1 from the default state. -/
theorem seq_exhaustion_boundary_witness :
    SeqGen.try_next (SeqGen.runAt ⟨0, 0⟩ 1 0) 1 = (Except.ok (1, 0), ⟨1, 0⟩) :=
  (seq_exhaustion_boundary ⟨0, 0⟩ 1 (by decide)).1 0 (by decide)

/-! ### Injectivity of the packing -/

/-- XOR is right-cancellative. -/
theorem xor_cancel_right (c : Nat) {a b : Nat} (h : a ^^^ c = b ^^^ c) : a = b := by
  simpa [Nat.xor_assoc] using congrArg (· ^^^ c) h

/-- XOR is left-cancellative. -/
theorem xor_cancel_left (c : Nat) {a b : Nat} (h : c ^^^ a = c ^^^ b) : a = b := by
  simpa [← Nat.xor_assoc] using congrArg (c ^^^ ·) h

/-- C4: packing is injective in the timestamp: for timestamps in the accepted
64-bit range, any u64 node and any u16 sequence, distinct timestamps yield
distinct packed values. -/
theorem build_uniqueness_by_timestamp (ts0 ts1 node seq : Nat)
    (h0 : ts0 < 2 ^ 64) (h1 : ts1 < 2 ^ 64) (hn : node < 2 ^ 64) (hs : seq < 2 ^ 16)
    (hne : ts0 ≠ ts1) :
    FlakeGen.build ts0 node seq ≠ FlakeGen.build ts1 node seq := by
  intro h
  unfold FlakeGen.build at h
  have h2 := xor_cancel_left _ (xor_cancel_right _ h)
  simp only [Nat.shiftLeft_eq, show (48 : Nat) + 16 = 64 from rfl] at h2
  have hb0 : ts0 * 2 ^ 64 < 2 ^ 128 := by
    calc ts0 * 2 ^ 64 < 2 ^ 64 * 2 ^ 64 := mul_lt_mul_of_pos_right h0 (by norm_num)
      _ = 2 ^ 128 := by norm_num
  have hb1 : ts1 * 2 ^ 64 < 2 ^ 128 := by
    calc ts1 * 2 ^ 64 < 2 ^ 64 * 2 ^ 64 := mul_lt_mul_of_pos_right h1 (by norm_num)
      _ = 2 ^ 128 := by norm_num
  rw [Nat.mod_eq_of_lt (lt_of_lt_of_le h0 (by norm_num)),
    Nat.mod_eq_of_lt (lt_of_lt_of_le h1 (by norm_num)),
    Nat.mod_eq_of_lt hb0, Nat.mod_eq_of_lt hb1] at h2
  exact hne (Nat.eq_of_mul_eq_mul_right (by norm_num) h2)

/-- C4 witness: timestamps 0 and 1 at node 0, sequence 0. -/
theorem build_uniqueness_by_timestamp_witness :
    FlakeGen.build 0 0 0 ≠ FlakeGen.build 1 0 0 :=
  build_uniqueness_by_timestamp 0 1 0 0 (by norm_num) (by norm_num) (by norm_num)
    (by norm_num) (by norm_num)

/-- C9: packing is injective in the node for a fixed timestamp and sequence,
and injective in the sequence for a fixed timestamp and node. -/
theorem build_uniqueness_by_node_and_seq (ts node seq n0 n1 s0 s1 : Nat)
    (hts : ts < 2 ^ 128) (hn : node < 2 ^ 64) (hs : seq < 2 ^ 16)
    (hn0 : n0 < 2 ^ 64) (hn1 : n1 < 2 ^ 64) (hs0 : s0 < 2 ^ 16) (hs1 : s1 < 2 ^ 16) :
    (n0 ≠ n1 → FlakeGen.build ts n0 seq ≠ FlakeGen.build ts n1 seq) ∧
    (s0 ≠ s1 → FlakeGen.build ts node s0 ≠ FlakeGen.build ts node s1) := by
  constructor
  · intro hne h
    unfold FlakeGen.build at h
    have h2 := xor_cancel_right _ (xor_cancel_right _ h)
    simp only [Nat.shiftLeft_eq] at h2
    have hb0 : n0 * 2 ^ 16 < 2 ^ 128 := by
      calc n0 * 2 ^ 16 < 2 ^ 64 * 2 ^ 16 := mul_lt_mul_of_pos_right hn0 (by norm_num)
        _ ≤ 2 ^ 128 := by norm_num
    have hb1 : n1 * 2 ^ 16 < 2 ^ 128 := by
      calc n1 * 2 ^ 16 < 2 ^ 64 * 2 ^ 16 := mul_lt_mul_of_pos_right hn1 (by norm_num)
        _ ≤ 2 ^ 128 := by norm_num
    rw [Nat.mod_eq_of_lt hn0, Nat.mod_eq_of_lt hn1,
      Nat.mod_eq_of_lt hb0, Nat.mod_eq_of_lt hb1] at h2
    exact hne (Nat.eq_of_mul_eq_mul_right (by norm_num) h2)
  · intro hne h
    unfold FlakeGen.build at h
    have h2 := xor_cancel_left _ h
    rw [Nat.mod_eq_of_lt hs0, Nat.mod_eq_of_lt hs1] at h2
    exact hne h2

/-- C9 witness: nodes 0 and 1 at timestamp 0, sequence 0. -/
theorem build_uniqueness_by_node_and_seq_witness :
    FlakeGen.build 0 0 0 ≠ FlakeGen.build 0 1 0 :=
  (build_uniqueness_by_node_and_seq 0 0 0 0 1 0 1 (by norm_num) (by norm_num) (by norm_num)
    (by norm_num) (by norm_num) (by norm_num) (by norm_num)).1 (by norm_num)

/-- C5: on the spec's operand ranges (`ts < 2^64`, `node < 2^48`,
`seq < 2^16`) the implemented shift-and-XOR packing equals the reference
`(ts << 64) | (node << 16) | seq`: XOR and OR agree on disjoint bit ranges. -/
theorem build_refines_packSpec (ts node seq : Nat)
    (ht : ts < 2 ^ 64) (hn : node < 2 ^ 48) (hs : seq < 2 ^ 16) :
    FlakeGen.build ts node seq = packSpec ts node seq := by
  rw [build_eq_sum ht hn hs, packSpec_eq_sum ht hn hs]

/-- C5 witness: a concrete timestamp, node and sequence. -/
theorem build_refines_packSpec_witness :
    FlakeGen.build 1656452611131 789486 7 = packSpec 1656452611131 789486 7 :=
  build_refines_packSpec 1656452611131 789486 7 (by norm_num) (by norm_num) (by norm_num)

/-- C6: the timestamp accessor recovers the packed timestamp for every
in-range field triple, and the concrete identifier value
30556157387769903979283677052928 reports extracted timestamp 1656452611131. -/
theorem flake_timestamp_extraction (ts node seq : Nat)
    (ht : ts < 2 ^ 64) (hn : node < 2 ^ 48) (hs : seq < 2 ^ 16) :
    (Flake.new (FlakeGen.build ts node seq)).timestamp = ts ∧
    (Flake.new 30556157387769903979283677052928).timestamp = 1656452611131 := by
  constructor
  · show (FlakeGen.build ts node seq % 2 ^ 128) >>> 64 = ts
    rw [Nat.mod_eq_of_lt (build_lt_two_pow ht hn hs), build_eq_sum ht hn hs,
      Nat.shiftRight_eq_div_pow]
    have hlow : node * 2 ^ 16 + seq < 2 ^ 64 := by
      norm_num at hn hs ⊢
      omega
    rw [show ts * 2 ^ 64 + node * 2 ^ 16 + seq = 2 ^ 64 * ts + (node * 2 ^ 16 + seq) by ring,
      Nat.mul_add_div (by norm_num), Nat.div_eq_of_lt hlow]
    omega
  · decide

/-- C6 witness: timestamp 1656452611131, node 789486, sequence 7. -/
theorem flake_timestamp_extraction_witness :
    (1656452611131 : Nat) < 2 ^ 64 ∧
    (Flake.new (FlakeGen.build 1656452611131 789486 7)).timestamp = 1656452611131 :=
  ⟨by norm_num,
    (flake_timestamp_extraction 1656452611131 789486 7 (by norm_num) (by norm_num)
      (by norm_num)).1⟩

/-- C10: `FlakeGen::new` stores any u64 node id without masking it to 48 bits,
and for node id `2^48` the packed identifier at timestamp 0 and sequence 0
reports a timestamp different from 0: the excess node bit lands in the
timestamp field. -/
theorem gen_new_unmasked_node (node : Nat) (hn : node < 2 ^ 64) :
    (FlakeGen.new node).node_id = node ∧
    (Flake.new (FlakeGen.build 0 (2 ^ 48) 0)).timestamp ≠ 0 := by
  constructor
  · show node % 2 ^ 64 = node
    exact Nat.mod_eq_of_lt hn
  · decide

/-- C10 witness: node id `2^48` is accepted and stored unmasked. -/
theorem gen_new_unmasked_node_witness :
    (FlakeGen.new (2 ^ 48)).node_id = 2 ^ 48 :=
  (gen_new_unmasked_node (2 ^ 48) (by norm_num)).1

/-! ### Base64 text encoding and decoding (src/id.rs Display, src/serde.rs) -/

/-- The standard base64 alphabet used by data_encoding::BASE64 (RFC 4648). -/
def b64Chars : List Char :=
  ['A', 'B', 'C', 'D', 'E', 'F', 'G', 'H', 'I', 'J', 'K', 'L', 'M',
   'N', 'O', 'P', 'Q', 'R', 'S', 'T', 'U', 'V', 'W', 'X', 'Y', 'Z',
   'a', 'b', 'c', 'd', 'e', 'f', 'g', 'h', 'i', 'j', 'k', 'l', 'm',
   'n', 'o', 'p', 'q', 'r', 's', 't', 'u', 'v', 'w', 'x', 'y', 'z',
   '0', '1', '2', '3', '4', '5', '6', '7', '8', '9', '+', '/']

/-- The base64 symbol for a 6-bit value. -/
def encChar (n : Nat) : Char := b64Chars.getD n 'A'

/-- The 6-bit value of a base64 symbol, if any. -/
def decodeChar (c : Char) : Option Nat := b64Chars.findIdx? (fun x => x == c)

/-- Standard padded base64 encoding of a byte list (RFC 4648, as performed by
data_encoding::BASE64.encode): three bytes become four symbols, a final one- or
two-byte group is padded with one or two `=` characters. -/
def base64EncodeBytes : List Nat → List Char
  | [] => []
  | [b1] => [encChar (b1 / 4), encChar (b1 % 4 * 16), '=', '=']
  | [b1, b2] => [encChar (b1 / 4), encChar (b1 % 4 * 16 + b2 / 16), encChar (b2 % 16 * 4), '=']
  | b1 :: b2 :: b3 :: rest =>
    encChar (b1 / 4) :: encChar (b1 % 4 * 16 + b2 / 16) :: encChar (b2 % 16 * 4 + b3 / 64)
      :: encChar (b3 % 64) :: base64EncodeBytes rest

/-- Decoding of the final four-symbol block, handling canonical padding and the
trailing-bits check that data_encoding::BASE64 performs. -/
def decodeBlock4 (c1 c2 c3 c4 : Char) : Option (List Nat) :=
  match decodeChar c1, decodeChar c2 with
  | some s1, some s2 =>
    if c3 = '=' then
      if c4 = '=' then
        if s2 % 16 = 0 then some [s1 * 4 + s2 / 16] else none
      else none
    else
      match decodeChar c3 with
      | some s3 =>
        if c4 = '=' then
          if s3 % 4 = 0 then some [s1 * 4 + s2 / 16, s2 % 16 * 16 + s3 / 4] else none
        else
          match decodeChar c4 with
          | some s4 => some [s1 * 4 + s2 / 16, s2 % 16 * 16 + s3 / 4, s3 % 4 * 64 + s4]
          | none => none
      | none => none
  | _, _ => none

/-- Strict padded base64 decoding (as performed by data_encoding::BASE64.decode):
the length must be a multiple of four, padding may appear only in the final
block, and non-significant trailing bits must be zero. -/
def base64DecodeChars : List Char → Option (List Nat)
  | [] => some []
  | c1 :: c2 :: c3 :: c4 :: rest =>
    if rest.isEmpty then
      decodeBlock4 c1 c2 c3 c4
    else
      match decodeChar c1, decodeChar c2, decodeChar c3, decodeChar c4 with
      | some s1, some s2, some s3, some s4 =>
        (base64DecodeChars rest).map
          (fun bs => (s1 * 4 + s2 / 16) :: (s2 % 16 * 16 + s3 / 4) :: (s3 % 4 * 64 + s4) :: bs)
      | _, _, _, _ => none
  | _ => none

/-- Big-endian byte decomposition of a u128 (Rust `u128::to_be_bytes`). -/
def u128_to_be_bytes (v : Nat) : List Nat :=
  [v / 2 ^ 120 % 256, v / 2 ^ 112 % 256, v / 2 ^ 104 % 256, v / 2 ^ 96 % 256,
   v / 2 ^ 88 % 256, v / 2 ^ 80 % 256, v / 2 ^ 72 % 256, v / 2 ^ 64 % 256,
   v / 2 ^ 56 % 256, v / 2 ^ 48 % 256, v / 2 ^ 40 % 256, v / 2 ^ 32 % 256,
   v / 2 ^ 24 % 256, v / 2 ^ 16 % 256, v / 2 ^ 8 % 256, v % 256]

/-- Big-endian recomposition of a byte list (Rust `u128::from_be_bytes` on the
16-byte array). -/
def beBytesToNat (bs : List Nat) : Nat := bs.foldl (fun acc b => acc * 256 + b) 0

/-- The Display implementation for `Flake` (src/id.rs): standard padded base64
over the big-endian bytes of the value. -/
def Flake.display (f : Flake) : String := String.mk (base64EncodeBytes (u128_to_be_bytes f.val))

/-- The serde visitor `FlakeVisitor::visit_string` (src/serde.rs): base64-decode
the input with `.unwrap()` (a decode failure PANICS, modelled as `none`), copy
the decoded bytes into a zero-initialised 16-byte array (more than 16 decoded
bytes PANIC with an out-of-bounds index, modelled as `none`; fewer leave
trailing zero bytes), and reinterpret the array as a big-endian u128.  The
Rust function never returns a deserialisation error. -/
def visit_string (s : String) : Option Flake :=
  (base64DecodeChars s.data).bind (fun bs =>
    if bs.length ≤ 16 then
      some (Flake.new (beBytesToNat (bs ++ List.replicate (16 - bs.length) 0)))
    else none)

/-- Decoding a base64 symbol recovers the encoded 6-bit value. -/
theorem decEncChar : ∀ n, n < 64 → decodeChar (encChar n) = some n := by decide

/-- Decoding one non-final encoded 3-byte block prepends the three bytes. -/
theorem decode_cons_block {b1 b2 b3 : Nat} (h1 : b1 < 256) (h2 : b2 < 256) (h3 : b3 < 256)
    (d : Char) (rest : List Char) :
    base64DecodeChars (encChar (b1 / 4) :: encChar (b1 % 4 * 16 + b2 / 16)
      :: encChar (b2 % 16 * 4 + b3 / 64) :: encChar (b3 % 64) :: d :: rest)
    = (base64DecodeChars (d :: rest)).map (fun bs => b1 :: b2 :: b3 :: bs) := by
  have e1 : decodeChar (encChar (b1 / 4)) = some (b1 / 4) := decEncChar _ (by omega)
  have e2 : decodeChar (encChar (b1 % 4 * 16 + b2 / 16)) = some (b1 % 4 * 16 + b2 / 16) :=
    decEncChar _ (by omega)
  have e3 : decodeChar (encChar (b2 % 16 * 4 + b3 / 64)) = some (b2 % 16 * 4 + b3 / 64) :=
    decEncChar _ (by omega)
  have e4 : decodeChar (encChar (b3 % 64)) = some (b3 % 64) := decEncChar _ (by omega)
  have hf : b1 / 4 * 4 + (b1 % 4 * 16 + b2 / 16) / 16 = b1 := by omega
  have hg : (b1 % 4 * 16 + b2 / 16) % 16 * 16 + (b2 % 16 * 4 + b3 / 64) / 4 = b2 := by omega
  have hh : (b2 % 16 * 4 + b3 / 64) % 4 * 64 + b3 % 64 = b3 := by omega
  simp only [base64DecodeChars, List.isEmpty_cons, Bool.false_eq_true, if_false,
    e1, e2, e3, e4, hf, hg, hh]

set_option maxRecDepth 16384 in
/-- Decoding the final padded block of a single byte recovers that byte. -/
theorem decode_final_block : ∀ b, b < 256 →
    base64DecodeChars [encChar (b / 4), encChar (b % 4 * 16), '=', '='] = some [b] := by decide

set_option maxHeartbeats 1000000 in
/-- Recomposing the big-endian byte decomposition of a u128 value gives the
value back. -/
theorem beBytes_of_u128 (v : Nat) (hv : v < 2 ^ 128) :
    beBytesToNat (u128_to_be_bytes v) = v := by
  unfold beBytesToNat u128_to_be_bytes
  simp only [List.foldl, Nat.zero_mul, Nat.zero_add]
  have h1 : v / 2 ^ 120 % 256 * 256 + v / 2 ^ 112 % 256 = v / 2 ^ 112 % 2 ^ 16 := by omega
  have h2 : v / 2 ^ 112 % 2 ^ 16 * 256 + v / 2 ^ 104 % 256 = v / 2 ^ 104 % 2 ^ 24 := by omega
  have h3 : v / 2 ^ 104 % 2 ^ 24 * 256 + v / 2 ^ 96 % 256 = v / 2 ^ 96 % 2 ^ 32 := by omega
  have h4 : v / 2 ^ 96 % 2 ^ 32 * 256 + v / 2 ^ 88 % 256 = v / 2 ^ 88 % 2 ^ 40 := by omega
  have h5 : v / 2 ^ 88 % 2 ^ 40 * 256 + v / 2 ^ 80 % 256 = v / 2 ^ 80 % 2 ^ 48 := by omega
  have h6 : v / 2 ^ 80 % 2 ^ 48 * 256 + v / 2 ^ 72 % 256 = v / 2 ^ 72 % 2 ^ 56 := by omega
  have h7 : v / 2 ^ 72 % 2 ^ 56 * 256 + v / 2 ^ 64 % 256 = v / 2 ^ 64 % 2 ^ 64 := by omega
  have h8 : v / 2 ^ 64 % 2 ^ 64 * 256 + v / 2 ^ 56 % 256 = v / 2 ^ 56 % 2 ^ 72 := by omega
  have h9 : v / 2 ^ 56 % 2 ^ 72 * 256 + v / 2 ^ 48 % 256 = v / 2 ^ 48 % 2 ^ 80 := by omega
  have h10 : v / 2 ^ 48 % 2 ^ 80 * 256 + v / 2 ^ 40 % 256 = v / 2 ^ 40 % 2 ^ 88 := by omega
  have h11 : v / 2 ^ 40 % 2 ^ 88 * 256 + v / 2 ^ 32 % 256 = v / 2 ^ 32 % 2 ^ 96 := by omega
  have h12 : v / 2 ^ 32 % 2 ^ 96 * 256 + v / 2 ^ 24 % 256 = v / 2 ^ 24 % 2 ^ 104 := by omega
  have h13 : v / 2 ^ 24 % 2 ^ 104 * 256 + v / 2 ^ 16 % 256 = v / 2 ^ 16 % 2 ^ 112 := by omega
  have h14 : v / 2 ^ 16 % 2 ^ 112 * 256 + v / 2 ^ 8 % 256 = v / 2 ^ 8 % 2 ^ 120 := by omega
  have h15 : v / 2 ^ 8 % 2 ^ 120 * 256 + v % 256 = v % 2 ^ 128 := by omega
  rw [h1, h2, h3, h4, h5, h6, h7, h8, h9, h10, h11, h12, h13, h14, h15, Nat.mod_eq_of_lt hv]

/-- Decoding the encoding of the 16 big-endian bytes of an u128 value gives
those bytes back. -/
theorem decode_encode_be_bytes (v : Nat) :
    base64DecodeChars (base64EncodeBytes (u128_to_be_bytes v))
      = some (u128_to_be_bytes v) := by
  have hb : ∀ k : Nat, v / 2 ^ k % 256 < 256 := fun k => Nat.mod_lt _ (by norm_num)
  have hb15 : v % 256 < 256 := Nat.mod_lt _ (by norm_num)
  simp only [u128_to_be_bytes, base64EncodeBytes]
  rw [decode_cons_block (hb 120) (hb 112) (hb 104),
    decode_cons_block (hb 96) (hb 88) (hb 80),
    decode_cons_block (hb 72) (hb 64) (hb 56),
    decode_cons_block (hb 48) (hb 40) (hb 32),
    decode_cons_block (hb 24) (hb 16) (hb 8),
    decode_final_block (v % 256) hb15]
  simp [Option.map]

/-- C8: the text encoding of any identifier value (base64 over its 16
big-endian bytes, as the Display implementation produces it) is 24 characters
long, and decoding it through the serde visitor reproduces the identifier
exactly. -/
theorem flake_text_roundtrip (f : Flake) (hf : f.val < 2 ^ 128) :
    (Flake.display f).length = 24 ∧ visit_string (Flake.display f) = some f := by
  obtain ⟨v⟩ := f
  have hf' : v < 2 ^ 128 := hf
  constructor
  · show (base64EncodeBytes (u128_to_be_bytes v)).length = 24
    simp [u128_to_be_bytes, base64EncodeBytes]
  · show visit_string (String.mk (base64EncodeBytes (u128_to_be_bytes v))) = some ⟨v⟩
    unfold visit_string
    rw [show (String.mk (base64EncodeBytes (u128_to_be_bytes v))).data
        = base64EncodeBytes (u128_to_be_bytes v) from rfl,
      decode_encode_be_bytes v]
    have hlen : (u128_to_be_bytes v).length = 16 := rfl
    simp only [Option.bind, hlen]
    rw [if_pos (by norm_num)]
    rw [show (16 : Nat) - 16 = 0 from rfl]
    simp only [List.replicate, List.append_nil]
    rw [beBytes_of_u128 v hf']
    show some (Flake.new v) = some ⟨v⟩
    unfold Flake.new
    rw [Nat.mod_eq_of_lt hf']

/-- C8 witness: the raw value 29866156537351941961353716432896 from the spec's
concrete example round-trips through the text encoding. -/
theorem flake_text_roundtrip_witness :
    (29866156537351941961353716432896 : Nat) < 2 ^ 128 ∧
    visit_string (Flake.display ⟨29866156537351941961353716432896⟩)
      = some ⟨29866156537351941961353716432896⟩ :=
  ⟨by norm_num, (flake_text_roundtrip ⟨29866156537351941961353716432896⟩ (by norm_num)).2⟩

set_option maxRecDepth 16384 in
/-- C7 fails on the code: the serde visitor does not reject inputs whose
base64 decoding is shorter than 16 bytes — it silently zero-pads them.  The
four-character input "AAAA" is well-formed base64 decoding to the three bytes
[0, 0, 0], yet `visit_string` accepts it and returns the identifier 0 instead
of a decode error; and on malformed base64 such as "$$$$" the Rust code panics
on `.unwrap()` (modelled as `none`) instead of returning a decode error. -/
theorem visit_string_wrong_length_accepted :
    visit_string "AAAA" = some ⟨0⟩ ∧
    base64DecodeChars (String.data "AAAA") = some [0, 0, 0] ∧
    visit_string "$$$$" = none := by decide
